import Mathlib

/-!
Shallow embedding of the subscription/broadcast core of the stock-market
tracker server (src/server/src/index.ts, src/server/src/fixed-index.ts) and
its storage layer (the database module).

JavaScript `Map` and `Set` preserve insertion order, so the subscription
registry (`activeSubscriptions : Map<string, Set<WebSocket>>`) is embedded as
an insertion-ordered association list from symbol to an ordered
duplicate-free list of connections.  Connections are identified by natural
numbers.  Rationals stand in for JavaScript numbers; `Math.sin` is abstracted
as a function bounded by 1 in absolute value (see `SineModel`).
-/

/-- Connections (WebSocket objects) are identified by naturals. -/
abbrev Conn := Nat

/-- The in-memory subscription registry: `Map<string, Set<WebSocket>>`
as an insertion-ordered association list with duplicate-free value lists. -/
abbrev Registry := List (String × List Conn)

/-- `Map.has(k)`. -/
def mapHas (m : Registry) (k : String) : Bool :=
  (m.lookup k).isSome

/-- `Map.get(k)` on the registry, defaulting to the empty set:
the subscriber set of a symbol. -/
def getSubs (m : Registry) (k : String) : List Conn :=
  (m.lookup k).getD []

/-- Replace the value stored under key `k` in place (JS `Map.set` keeps the
entry's position when the key exists). -/
def mapUpdate (m : Registry) (k : String) (f : List Conn → List Conn) : Registry :=
  m.map (fun p => if p.1 = k then (p.1, f p.2) else p)

/-- `Map.delete(k)`. -/
def mapDelete (m : Registry) (k : String) : Registry :=
  m.filter (fun p => p.1 ≠ k)

/-- `Set.add(ws)`: appends when absent (JS sets keep insertion order and
never store duplicates). -/
def setAdd (ws : Conn) (l : List Conn) : List Conn :=
  if ws ∈ l then l else l ++ [ws]

/-- `Set.delete(ws)`. -/
def setDel (ws : Conn) (l : List Conn) : List Conn :=
  l.filter (fun c => c ≠ ws)

/-- The SUBSCRIBE_STOCK branch of the message handler in index.ts
(lines 49–60): create the entry if missing, then add the connection to the
symbol's set.  `sym` is the already-uppercased symbol. -/
def subscribe (reg : Registry) (sym : String) (ws : Conn) : Registry :=
  let reg1 := if mapHas reg sym then reg else reg ++ [(sym, [])]
  mapUpdate reg1 sym (setAdd ws)

/-- The UNSUBSCRIBE_STOCK branch of the message handler in index.ts
(lines 61–72): if the symbol has an entry, delete the connection from its
set, and drop the entry entirely when the set becomes empty. -/
def unsubscribe (reg : Registry) (sym : String) (ws : Conn) : Registry :=
  if mapHas reg sym then
    let reg1 := mapUpdate reg sym (setDel ws)
    if getSubs reg1 sym = [] then mapDelete reg1 sym else reg1
  else reg

/-- The close handler in index.ts (lines 78–87): remove the connection from
every symbol's set and drop entries whose set becomes empty. -/
def closeConn (reg : Registry) (ws : Conn) : Registry :=
  (reg.map (fun p => (p.1, setDel ws p.2))).filter (fun p => p.2 ≠ [])

/-- The close handler in fixed-index.ts (lines 63–71): remove the connection
from every symbol's set; empty entries are left in the map. -/
def fixedCloseConn (reg : Registry) (ws : Conn) : Registry :=
  reg.map (fun p => (p.1, setDel ws p.2))

/-- `symbol.toUpperCase()`: character-wise ASCII uppercasing (ticker symbols
are ASCII, where the JS and per-character uppercasings coincide). -/
def jsToUpper (s : String) : String :=
  ⟨s.data.map Char.toUpper⟩

/-- An inbound WebSocket frame after `JSON.parse`: either not valid JSON
(the parse throws), or a JSON object with optional string fields `type` and
`symbol`. -/
inductive InMsg where
  | notJson : InMsg
  | json (ty : Option String) (symb : Option String) : InMsg

/-- Result of one run of the `ws.on('message')` handler: the registry
afterwards, whether the handler closed the socket (no code path does), and
the symbols for which an immediate quote push was triggered. -/
structure MsgEffect where
  registry : Registry
  closedByServer : Bool
  eagerSends : List String
  deriving Repr, DecidableEq

/-- The `ws.on('message')` handler of index.ts (lines 44–76).  A missing
`symbol` field makes `data.symbol.toUpperCase()` throw, which the
surrounding try/catch absorbs before any registry mutation; an unrecognized
`type` falls through both branches; unparseable JSON throws in `JSON.parse`.
In all three cases the registry is untouched and the connection stays open. -/
def handleMessage (reg : Registry) (ws : Conn) (m : InMsg) : MsgEffect :=
  match m with
  | .notJson => ⟨reg, false, []⟩
  | .json ty symb =>
    if ty = some "SUBSCRIBE_STOCK" then
      match symb with
      | some s => ⟨subscribe reg (jsToUpper s) ws, false, [jsToUpper s]⟩
      | none => ⟨reg, false, []⟩
    else if ty = some "UNSUBSCRIBE_STOCK" then
      match symb with
      | some s => ⟨unsubscribe reg (jsToUpper s) ws, false, []⟩
      | none => ⟨reg, false, []⟩
    else ⟨reg, false, []⟩

/-- A frame that is not a well-formed subscribe or unsubscribe request:
unparseable JSON, an unrecognized `type`, or a missing `symbol`. -/
def Malformed (m : InMsg) : Prop :=
  match m with
  | .notJson => True
  | .json ty symb =>
      (ty ≠ some "SUBSCRIBE_STOCK" ∧ ty ≠ some "UNSUBSCRIBE_STOCK") ∨ symb = none

instance : DecidablePred Malformed := by
  intro m
  cases m with
  | notJson => exact .isTrue trivial
  | json ty symb => exact inferInstanceAs (Decidable (_ ∨ _))

/-- Representation invariant of the embedded registry: keys are distinct
(a JS `Map` cannot hold a key twice) and each value list is duplicate-free
(a JS `Set` cannot hold an element twice). -/
def WFReg (reg : Registry) : Prop :=
  (reg.map Prod.fst).Nodup ∧ ∀ p ∈ reg, p.2.Nodup

instance : DecidablePred WFReg := by
  intro reg
  exact inferInstanceAs (Decidable (_ ∧ _))

/-- The state invariant of index.ts claimed by the spec: every symbol key
present in the map has a non-empty subscriber set. -/
def NoEmptyEntries (reg : Registry) : Prop :=
  ∀ p ∈ reg, p.2 ≠ []

instance : DecidablePred NoEmptyEntries := by
  intro reg
  exact inferInstanceAs (Decidable (∀ p ∈ reg, p.2 ≠ []))

/-! ## Broadcast scheduler

The `setInterval` callbacks iterate the registry and call `sendStockData`
once per open subscriber connection.  A tick is embedded as the list of
(symbol, connection) fetch-and-push events it performs, in iteration order;
the tick mutates neither the registry nor the sets it iterates. -/

/-- The scheduler tick of index.ts (lines 184–192): for every registry entry
and every subscriber in its set, if the connection is open
(`readyState === WebSocket.OPEN`) then `sendStockData(symbol, client)` runs,
performing one Adapter fetch and one push for that pair. -/
def tickEvents (reg : Registry) (isOpen : Conn → Bool) : List (String × Conn) :=
  reg.flatMap (fun p => (p.2.filter isOpen).map (fun c => (p.1, c)))

/-- The scheduler tick of fixed-index.ts (lines 168–180): identical except
for an extra `clients.size > 0` guard before iterating a symbol's set. -/
def fixedTickEvents (reg : Registry) (isOpen : Conn → Bool) : List (String × Conn) :=
  reg.flatMap (fun p =>
    if p.2.length > 0 then (p.2.filter isOpen).map (fun c => (p.1, c)) else [])

/-! ## Synthetic quote generator

`sendMockStockData` / `sendMockApiResponse` hash the symbol with 32-bit
signed overflow semantics, derive a base price in [50, 1000), bucket time
into 5-minute windows, and apply a sinusoidal fluctuation of amplitude 2%.
JavaScript numbers are embedded as rationals and `Math.sin` as an arbitrary
function into [-1, 1] of the integer bucket index. -/

/-- JavaScript `ToInt32`: wrap an integer into [-2^31, 2^31). -/
def toInt32 (n : Int) : Int :=
  (n + 2 ^ 31) % 2 ^ 32 - 2 ^ 31

/-- One step of the reduce in the hash:
`a = ((a << 5) - a) + charCode; return a & a`.  The shift wraps to int32
first, and `a & a` coerces the exact double sum back to int32. -/
def jsHashStep (a : Int) (c : Nat) : Int :=
  toInt32 (toInt32 (32 * a) - a + c)

/-- `symbol.split('').reduce((a, b) => ..., 0)`: fold the step over the
UTF-16 code units of the symbol. -/
def jsHash (s : String) : Int :=
  s.data.foldl (fun a ch => jsHashStep a ch.toNat) 0

/-- `50 + Math.abs(hash % 950)`.  The JS remainder keeps the dividend's
sign, so `Math.abs(hash % 950)` equals `|hash| % 950`. -/
def basePrice (s : String) : Nat :=
  50 + (jsHash s).natAbs % 950

/-- Abstraction of `Math.sin` on integer 5-minute bucket indices: any
function into [-1, 1].  (`Math.floor(Date.now() / 300000)` supplies the
bucket index; `|Math.sin t| ≤ 1` is the only property the code relies on.) -/
structure SineModel where
  val : Int → ℚ
  bound : ∀ t : Int, |val t| ≤ 1

/-- A sine model that is constant across buckets: stands for reading
`Math.sin` at a bucket where it takes (approximately) the value `q`. -/
def constSine (q : ℚ) (h : |q| ≤ 1) : SineModel :=
  ⟨fun _ => q, fun _ => h⟩

/-- Sine model for a bucket where `Math.sin` vanishes. -/
def sineZero : SineModel := constSine 0 (by norm_num)

/-- Sine model for a bucket where `Math.sin` is close to its maximum:
`0.8414709848` is `Math.sin 1` to ten digits, and about half of all 5-minute
bucket indices give a sine value of at least `0.06`, which is all the
counterexample below needs. -/
def sineNearOne : SineModel :=
  constSine (8414709848 / 10 ^ 10) (by rw [abs_le]; constructor <;> norm_num)

/-- `const fluctuation = Math.sin(timeSegment) * 0.02`. -/
def fluctuation (sn : SineModel) (t : Int) : ℚ :=
  sn.val t * (2 / 100)

/-- `const price = basePrice * (1 + fluctuation)`. -/
def mockPrice (sn : SineModel) (s : String) (t : Int) : ℚ :=
  (basePrice s : ℚ) * (1 + fluctuation sn t)

/-- One quote observation.  The wall-clock `timestamp` field of the wire
messages is omitted: it differs between any two calls and no claim
constrains it. -/
structure Sample where
  symbol : String
  price : ℚ
  change : ℚ
  changePercent : ℚ
  deriving Repr, DecidableEq

/-- The quote built by `sendMockStockData` (index.ts lines 142–181, same in
fixed-index.ts): `change = basePrice * fluctuation`. -/
def mockQuote (sn : SineModel) (s : String) (t : Int) : Sample :=
  { symbol := s
    price := mockPrice sn s t
    change := (basePrice s : ℚ) * fluctuation sn t
    changePercent := fluctuation sn t * 100 }

/-- The quote built by `sendMockApiResponse` (index.ts lines 229–257):
`change = price - basePrice`.  The route serializes price and change with
`toFixed(2)`; the embedded response carries the exact values. -/
def mockApiQuote (sn : SineModel) (s : String) (t : Int) : Sample :=
  { symbol := s
    price := mockPrice sn s t
    change := mockPrice sn s t - (basePrice s : ℚ)
    changePercent := fluctuation sn t * 100 }

/-! ## Quote source adapter and history side effect

The History Store is embedded as the list of samples appended to it via
`storeHistoricalData` (which always succeeds, falling back to memory).
`sendStockData` is a function from the configuration (API key present?),
the provider's response, the history list, the symbol and the time bucket
to the new history list and the pushed STOCK_UPDATE payload. -/

/-- A parsed provider quote (fields already read as numbers; the live
symbol field `01. symbol` may differ from the requested one). -/
structure ProviderQuote where
  symbol : String
  price : ℚ
  change : ℚ
  changePercent : ℚ
  deriving Repr, DecidableEq

/-- Outcome of the `axios.get` call to the provider: the request throws, or
a response arrives with optional `Note` / `Information` fields and an
optional `Global Quote` object. -/
inductive FetchResult where
  | throwErr : FetchResult
  | resp (hasNote hasInfo : Bool) (gq : Option ProviderQuote) : FetchResult
  deriving Repr, DecidableEq

/-- `sendMockStockData(symbol, ws)` (index.ts lines 142–181): builds the
synthetic quote, appends it to the History Store, and sends it. -/
def sendMockStockData (sn : SineModel) (hist : List Sample) (s : String)
    (t : Int) : List Sample × Sample :=
  (hist ++ [mockQuote sn s t], mockQuote sn s t)

/-- `sendStockData(symbol, ws)` (index.ts lines 91–139): no API key, a
thrown request, a rate-limit notice, or a missing `Global Quote` all fall
back to `sendMockStockData`; otherwise the parsed live quote is appended to
the History Store and sent. -/
def sendStockData (sn : SineModel) (hasKey : Bool) (fr : FetchResult)
    (hist : List Sample) (s : String) (t : Int) : List Sample × Sample :=
  if hasKey = false then sendMockStockData sn hist s t
  else
    match fr with
    | .throwErr => sendMockStockData sn hist s t
    | .resp hasNote hasInfo gq =>
      if hasNote || hasInfo || gq.isNone then sendMockStockData sn hist s t
      else
        match gq with
        | some q =>
            (hist ++ [⟨s, q.price, q.change, q.changePercent⟩],
             ⟨q.symbol, q.price, q.change, q.changePercent⟩)
        | none => sendMockStockData sn hist s t

/-- Body of the HTTP quote route's response: the mock `Global Quote` shape,
or the provider's JSON passed through unchanged. -/
inductive RouteResp where
  | mock (g : Sample) : RouteResp
  | passthrough (fr : FetchResult) : RouteResp
  deriving DecidableEq

/-- `sendMockApiResponse(res, symbol)` (index.ts lines 229–257): builds the
synthetic `Global Quote` JSON and sends it.  Unlike `sendMockStockData`, it
never calls `storeHistoricalData`: the history list is returned unchanged. -/
def sendMockApiResponse (sn : SineModel) (hist : List Sample) (s : String)
    (t : Int) : List Sample × RouteResp :=
  (hist, .mock (mockApiQuote sn s t))

/-- `GET /api/stocks/:symbol` (index.ts lines 195–226): without an API key,
on a thrown request, on a rate-limit notice, or without `Global Quote`, the
mock response is sent; otherwise the provider body is passed through via
`res.json(response.data)`.  No branch calls `storeHistoricalData`. -/
def httpStocksRoute (sn : SineModel) (hasKey : Bool) (fr : FetchResult)
    (hist : List Sample) (s : String) (t : Int) : List Sample × RouteResp :=
  if hasKey = false then sendMockApiResponse sn hist s t
  else
    match fr with
    | .throwErr => sendMockApiResponse sn hist s t
    | .resp hasNote hasInfo gq =>
      if hasNote || hasInfo || gq.isNone then sendMockApiResponse sn hist s t
      else (hist, .passthrough fr)

/-! ## Watchlist / History storage layer

The database module keeps a module-level `usingFallback` flag and an
`inMemoryStorage` object (`watchlists : Map<number, Set<string>>`,
`historicalData : Map<string, Array<sample>>`).  Every exported operation
takes the in-memory branch when the flag is set; otherwise it tries the
MySQL pool and, in its catch block, sets the flag and performs the
in-memory effect anyway.  Every path returns normally (success).  The
outcome of the attempted MySQL statement is abstracted as a boolean. -/

/-- The `inMemoryStorage` object of the database module. -/
structure MemStore where
  watchlists : List (Nat × List String)
  historicalData : List (String × List Sample)
  deriving Repr, DecidableEq

/-- One call into the storage layer, with its arguments. -/
inductive StoreOp where
  | getWatchlist (userId : Nat) : StoreOp
  | addWatch (userId : Nat) (symbol : String) : StoreOp
  | removeWatch (userId : Nat) (symbol : String) : StoreOp
  | storeHist (symbol : String) (price change changePercent : ℚ) : StoreOp
  | getHist (symbol : String) (limit : Nat) : StoreOp
  deriving Repr, DecidableEq

/-- Ordered-list update of `Map<number, Set<string>>` for `addToWatchlist`:
create the user's set if missing, then `Set.add(symbol)`. -/
def memAddWatch (w : List (Nat × List String)) (u : Nat) (s : String) :
    List (Nat × List String) :=
  let w1 := if (w.lookup u).isSome then w else w ++ [(u, [])]
  w1.map (fun p =>
    if p.1 = u then (p.1, if s ∈ p.2 then p.2 else p.2 ++ [s]) else p)

/-- `removeFromWatchlist`'s in-memory effect: `Set.delete(symbol)` on the
user's set when it exists. -/
def memRemoveWatch (w : List (Nat × List String)) (u : Nat) (s : String) :
    List (Nat × List String) :=
  w.map (fun p => if p.1 = u then (p.1, p.2.filter (fun x => x ≠ s)) else p)

/-- `storeHistoricalData`'s in-memory effect: create the symbol's array if
missing, then push the sample. -/
def memStoreHist (h : List (String × List Sample)) (s : String)
    (sample : Sample) : List (String × List Sample) :=
  let h1 := if (h.lookup s).isSome then h else h ++ [(s, [])]
  h1.map (fun p => if p.1 = s then (p.1, p.2 ++ [sample]) else p)

/-- The in-memory branch of each storage operation (reads leave the store
unchanged). -/
def memApply (m : MemStore) : StoreOp → MemStore
  | .getWatchlist _ => m
  | .addWatch u s => { m with watchlists := memAddWatch m.watchlists u s }
  | .removeWatch u s => { m with watchlists := memRemoveWatch m.watchlists u s }
  | .storeHist s p c cp =>
      { m with historicalData := memStoreHist m.historicalData s ⟨s, p, c, cp⟩ }
  | .getHist _ _ => m

/-- State of the storage layer: the `usingFallback` flag, the in-memory
store, and the log of statements committed to the durable backend. -/
structure StoreState where
  usingFallback : Bool
  mem : MemStore
  db : List StoreOp
  deriving Repr, DecidableEq

/-- One storage-layer call (`getUserWatchlist`, `addToWatchlist`,
`removeFromWatchlist`, `storeHistoricalData`, `getHistoricalData`): with the
flag set, only the in-memory store is touched; otherwise the MySQL
statement is attempted (`dbOk` abstracts its outcome) and, on failure, the
catch block sets `usingFallback = true` and performs the in-memory effect.
The returned boolean is whether the call reports success — every path in
the source returns normally, so it is always `true`. -/
def storeStep (st : StoreState) (op : StoreOp) (dbOk : Bool) :
    StoreState × Bool :=
  if st.usingFallback then
    ({ st with mem := memApply st.mem op }, true)
  else if dbOk then
    ({ st with db := st.db ++ [op] }, true)
  else
    ({ usingFallback := true, mem := memApply st.mem op, db := st.db }, true)

/-- Run a sequence of storage calls with their backend outcomes. -/
def runStore (st : StoreState) : List (StoreOp × Bool) → StoreState
  | [] => st
  | (op, b) :: rest => runStore (storeStep st op b).1 rest

/-! ## Registry lemmas -/

/-- Transport a predicate on subscriber sets through `getSubs`: if it holds
for the empty set and for every stored value, it holds for any lookup. -/
theorem getSubs_pred {P : List Conn → Prop} (m : Registry) (k : String)
    (hnil : P []) (h : ∀ p ∈ m, P p.2) : P (getSubs m k) := by
  induction m with
  | nil => simpa [getSubs] using hnil
  | cons p rest ih =>
    by_cases hk : k = p.1
    · simpa [getSubs, List.lookup, hk] using h p (by simp)
    · have : (k == p.1) = false := by simpa using hk
      simpa [getSubs, List.lookup, this] using
        ih (fun q hq => h q (by simp [hq]))

/-- `mapUpdate` is the identity when the update function fixes every value
stored under the key. -/
theorem mapUpdate_congr (m : Registry) (k : String) (f : List Conn → List Conn)
    (h : ∀ p ∈ m, p.1 = k → f p.2 = p.2) : mapUpdate m k f = m := by
  induction m with
  | nil => rfl
  | cons p rest ih =>
    simp only [mapUpdate, List.map_cons]
    rw [show (if p.1 = k then (p.1, f p.2) else p) = p by
      split
      · exact Prod.ext rfl (h p (by simp) (by assumption))
      · rfl]
    rw [show rest.map _ = rest from ih (fun q hq => h q (by simp [hq]))]

/-- Looking up the updated key returns the transformed value. -/
theorem lookup_mapUpdate_self (m : Registry) (k : String)
    (f : List Conn → List Conn) :
    (mapUpdate m k f).lookup k = (m.lookup k).map f := by
  induction m with
  | nil => rfl
  | cons p rest ih =>
    simp only [mapUpdate, List.map_cons] at ih ⊢
    by_cases hk : p.1 = k
    · subst hk
      rw [if_pos rfl]
      simp [List.lookup]
    · have hb : (k == p.1) = false := by simpa using (Ne.symm hk)
      rw [if_neg hk]
      simp [List.lookup, hb, ih]

/-- Appending a fresh key to a map without it makes that key found. -/
theorem lookup_append_of_not_has (m : Registry) (k : String) (v : List Conn)
    (h : mapHas m k = false) : (m ++ [(k, v)]).lookup k = some v := by
  induction m with
  | nil => simp [List.lookup]
  | cons p rest ih =>
    have hk : (k == p.1) = false := by
      by_contra hc
      have : k = p.1 := by
        have := eq_of_beq (a := k) (b := p.1) (by
          cases hkb : (k == p.1) with
          | true => rfl
          | false => exact absurd hkb hc)
        exact this
      rw [this] at h
      simp [mapHas, List.lookup] at h
    have hrest : mapHas rest k = false := by
      simp only [mapHas, List.lookup, hk] at h
      exact h
    simp [List.lookup, hk, ih hrest]

/-- With distinct keys, every stored entry is what lookup finds. -/
theorem lookup_eq_of_mem_of_nodupkeys (m : Registry) (p : String × List Conn)
    (hnd : (m.map Prod.fst).Nodup) (hp : p ∈ m) : m.lookup p.1 = some p.2 := by
  induction m with
  | nil => cases hp
  | cons q rest ih =>
    rcases List.mem_cons.1 hp with rfl | hp'
    · simp [List.lookup]
    · have hne : p.1 ≠ q.1 := by
        intro he
        have : q.1 ∈ rest.map Prod.fst := he ▸ List.mem_map_of_mem Prod.fst hp'
        exact (List.nodup_cons.1 (by simpa using hnd)).1 this
      have hb : (p.1 == q.1) = false := by simpa using hne
      exact (by simp [List.lookup, hb,
        ih (List.nodup_cons.1 (by simpa using hnd)).2 hp'])

/-- A successful lookup exhibits a stored entry. -/
theorem lookup_mem (m : Registry) (k : String) (v : List Conn)
    (h : m.lookup k = some v) : (k, v) ∈ m := by
  induction m with
  | nil => simp [List.lookup] at h
  | cons p rest ih =>
    cases hb : (k == p.1) with
    | true =>
      have hk : k = p.1 := eq_of_beq hb
      simp only [List.lookup, hb] at h
      have hv : v = p.2 := by
        injection h with h'
        exact h'.symm
      rw [hk, hv]
      exact List.mem_cons_self _ _
    | false =>
      simp only [List.lookup, hb] at h
      exact List.mem_cons_of_mem _ (ih h)

/-- `Set.add` always leaves the added element in the set. -/
theorem mem_setAdd_self (ws : Conn) (l : List Conn) : ws ∈ setAdd ws l := by
  simp only [setAdd]
  split
  · assumption
  · simp

/-- `Set.add` of a member is the identity. -/
theorem setAdd_of_mem (ws : Conn) (l : List Conn) (h : ws ∈ l) :
    setAdd ws l = l := by
  simp [setAdd, h]

/-- `Set.delete` of a non-member is the identity. -/
theorem setDel_of_not_mem (ws : Conn) (l : List Conn) (h : ws ∉ l) :
    setDel ws l = l := by
  refine List.filter_eq_self.mpr ?_
  intro c hc
  simp only [decide_eq_true_eq]
  intro he
  exact h (he ▸ hc)

/-- `Set.add` never produces the empty set. -/
theorem setAdd_ne_nil (ws : Conn) (l : List Conn) : setAdd ws l ≠ [] :=
  List.ne_nil_of_mem (mem_setAdd_self ws l)

/-- After a subscribe the symbol's entry exists. -/
theorem mapHas_subscribe_self (reg : Registry) (sym : String) (ws : Conn) :
    mapHas (subscribe reg sym ws) sym = true := by
  cases hl : reg.lookup sym with
  | some v =>
    have hh : mapHas reg sym = true := by simp [mapHas, hl]
    simp [subscribe, hh, mapHas, lookup_mapUpdate_self, hl]
  | none =>
    have hh : mapHas reg sym = false := by simp [mapHas, hl]
    simp only [subscribe, mapHas, lookup_mapUpdate_self, hl, Option.isSome_none,
      Bool.false_eq_true, if_false]
    rw [lookup_append_of_not_has reg sym [] hh]
    simp

/-- A subscribe adds the connection to the symbol's subscriber set and
changes nothing else about that set. -/
theorem getSubs_subscribe_self (reg : Registry) (sym : String) (ws : Conn) :
    getSubs (subscribe reg sym ws) sym = setAdd ws (getSubs reg sym) := by
  cases hl : reg.lookup sym with
  | some v =>
    have hh : mapHas reg sym = true := by simp [mapHas, hl]
    simp [subscribe, hh, getSubs, lookup_mapUpdate_self, hl]
  | none =>
    have hh : mapHas reg sym = false := by simp [mapHas, hl]
    simp only [subscribe, mapHas, getSubs, lookup_mapUpdate_self, hl,
      Option.isSome_none, Bool.false_eq_true, if_false]
    rw [lookup_append_of_not_has reg sym [] hh]
    simp

/-- Subscribing the same (symbol, connection) pair twice equals subscribing
once — for every registry state. -/
theorem subscribe_twice (reg : Registry) (sym : String) (ws : Conn) :
    subscribe (subscribe reg sym ws) sym ws = subscribe reg sym ws := by
  have hhas := mapHas_subscribe_self reg sym ws
  conv_lhs => rw [subscribe]
  rw [if_pos hhas]
  refine mapUpdate_congr _ _ _ ?_
  intro p hp hpk
  refine setAdd_of_mem ws p.2 ?_
  simp only [subscribe, mapUpdate, List.mem_map] at hp
  obtain ⟨q, hq, hpq⟩ := hp
  by_cases hqk : q.1 = sym
  · rw [if_pos hqk] at hpq
    rw [← hpq]
    exact mem_setAdd_self ws q.2
  · rw [if_neg hqk] at hpq
    exact absurd (hpq ▸ hpk) hqk

/-- `Set.add` into a duplicate-free set leaves exactly one copy. -/
theorem count_setAdd (ws : Conn) (l : List Conn) (h : l.Nodup) :
    (setAdd ws l).count ws = 1 := by
  by_cases hm : ws ∈ l
  · rw [setAdd_of_mem ws l hm]
    exact List.count_eq_one_of_mem h hm
  · simp only [setAdd, hm, if_false]
    rw [List.count_append]
    rw [List.count_eq_zero.2 hm]
    simp

/-- Under the representation invariant, every subscriber set is
duplicate-free. -/
theorem getSubs_nodup (reg : Registry) (sym : String) (h : WFReg reg) :
    (getSubs reg sym).Nodup := by
  refine getSubs_pred (P := fun l => l.Nodup) _ _ List.nodup_nil ?_
  exact h.2

/-- Under the no-empty-entries invariant, a present key has a non-empty
subscriber set. -/
theorem getSubs_ne_nil_of_has (reg : Registry) (sym : String)
    (hNE : NoEmptyEntries reg) (h : mapHas reg sym = true) :
    getSubs reg sym ≠ [] := by
  simp only [mapHas] at h
  cases hl : reg.lookup sym with
  | none => rw [hl] at h; simp at h
  | some v =>
    have : (sym, v) ∈ reg := lookup_mem reg sym v hl
    have hv : v ≠ [] := hNE (sym, v) this
    simpa [getSubs, hl] using hv

/-- Unsubscribing a connection that is not in the symbol's subscriber set
leaves the registry unchanged, on states satisfying the code's invariants. -/
theorem unsubscribe_nonmember (reg : Registry) (sym : String) (ws : Conn)
    (hWF : WFReg reg) (hNE : NoEmptyEntries reg)
    (h : ws ∉ getSubs reg sym) : unsubscribe reg sym ws = reg := by
  cases hh : mapHas reg sym with
  | false => simp [unsubscribe, hh]
  | true =>
    have hupd : mapUpdate reg sym (setDel ws) = reg := by
      refine mapUpdate_congr _ _ _ ?_
      intro p hp hpk
      have hlk : reg.lookup p.1 = some p.2 :=
        lookup_eq_of_mem_of_nodupkeys reg p hWF.1 hp
      have hsub : getSubs reg sym = p.2 := by
        simp [getSubs, hpk ▸ hlk]
      refine setDel_of_not_mem ws p.2 ?_
      rw [← hsub]
      exact h
    have hne := getSubs_ne_nil_of_has reg sym hNE hh
    simp [unsubscribe, hh, hupd, hne]

/-! ## Invariant preservation -/

/-- A subscribe never creates an empty subscriber set: the entry it creates
or updates receives the subscribing connection. -/
theorem noEmpty_subscribe (reg : Registry) (sym : String) (ws : Conn)
    (h : NoEmptyEntries reg) : NoEmptyEntries (subscribe reg sym ws) := by
  intro p hp
  simp only [subscribe, mapUpdate, List.mem_map] at hp
  obtain ⟨q, hq, hpq⟩ := hp
  by_cases hqk : q.1 = sym
  · rw [if_pos hqk] at hpq
    rw [← hpq]
    exact setAdd_ne_nil ws q.2
  · rw [if_neg hqk] at hpq
    rw [← hpq]
    have hqreg : q ∈ reg := by
      by_cases hh : mapHas reg sym
      · simpa [hh] using hq
      · simp only [hh, Bool.false_eq_true, if_false, List.mem_append,
          List.mem_singleton] at hq
        rcases hq with hq | hq
        · exact hq
        · exact absurd (by rw [hq]) hqk
    exact h q hqreg

/-- An unsubscribe deletes the symbol's entry exactly when its set becomes
empty, so no empty entry survives. -/
theorem noEmpty_unsubscribe (reg : Registry) (sym : String) (ws : Conn)
    (hWF : WFReg reg) (h : NoEmptyEntries reg) :
    NoEmptyEntries (unsubscribe reg sym ws) := by
  cases hh : mapHas reg sym with
  | false => simpa [unsubscribe, hh] using h
  | true =>
    simp only [unsubscribe, hh, if_true]
    split
    · intro p hp
      simp only [mapDelete, List.mem_filter, mapUpdate, List.mem_map] at hp
      obtain ⟨⟨q, hq, hpq⟩, hpk⟩ := hp
      by_cases hqk : q.1 = sym
      · rw [if_pos hqk] at hpq
        rw [← hpq] at hpk
        simp only [decide_eq_true_eq] at hpk
        exact absurd hqk hpk
      · rw [if_neg hqk] at hpq
        exact hpq ▸ h q hq
    · intro p hp
      simp only [mapUpdate, List.mem_map] at hp
      obtain ⟨q, hq, hpq⟩ := hp
      by_cases hqk : q.1 = sym
      · rw [if_pos hqk] at hpq
        rw [← hpq]
        have hlk : reg.lookup sym = some q.2 := by
          have := lookup_eq_of_mem_of_nodupkeys reg q hWF.1 hq
          rwa [hqk] at this
        have hgs : getSubs (mapUpdate reg sym (setDel ws)) sym = setDel ws q.2 := by
          simp [getSubs, lookup_mapUpdate_self, hlk]
        intro hnil
        rename_i hcond
        rw [hgs] at hcond
        exact hcond hnil
      · rw [if_neg hqk] at hpq
        exact hpq ▸ h q hq

/-- The close handler filters out empty sets, so its result satisfies the
invariant from any starting state. -/
theorem noEmpty_closeConn (reg : Registry) (ws : Conn) :
    NoEmptyEntries (closeConn reg ws) := by
  intro p hp
  simp only [closeConn, List.mem_filter, decide_eq_true_eq] at hp
  exact hp.2

/-! ## Scheduler tick lemmas -/

/-- Every tick event's symbol is a key of the registry. -/
theorem fst_mem_keys_of_mem_tickEvents (reg : Registry) (isOpen : Conn → Bool)
    (e : String × Conn) (h : e ∈ tickEvents reg isOpen) :
    e.1 ∈ reg.map Prod.fst := by
  simp only [tickEvents, List.mem_flatMap, List.mem_map] at h
  obtain ⟨p, hp, c, hc, rfl⟩ := h
  exact List.mem_map_of_mem Prod.fst hp

/-- With distinct keys, a tick performs a fetch-and-push event for exactly
the open subscribers of each symbol. -/
theorem mem_tickEvents_iff (reg : Registry) (isOpen : Conn → Bool)
    (sym : String) (c : Conn) (hnd : (reg.map Prod.fst).Nodup) :
    (sym, c) ∈ tickEvents reg isOpen ↔
      c ∈ getSubs reg sym ∧ isOpen c = true := by
  constructor
  · intro h
    simp only [tickEvents, List.mem_flatMap, List.mem_map] at h
    obtain ⟨p, hp, c', hc', he⟩ := h
    have hc'' : c' = c := congrArg Prod.snd he
    have hps : p.1 = sym := congrArg Prod.fst he
    have hlk : reg.lookup sym = some p.2 := by
      have := lookup_eq_of_mem_of_nodupkeys reg p hnd hp
      rwa [hps] at this
    have hmem := List.mem_filter.1 hc'
    subst hc''
    exact ⟨by simp [getSubs, hlk, hmem.1], hmem.2⟩
  · rintro ⟨hmem, hopen⟩
    cases hl : reg.lookup sym with
    | none => simp [getSubs, hl] at hmem
    | some v =>
      have hv : c ∈ v := by simpa [getSubs, hl] using hmem
      have hpm : (sym, v) ∈ reg := lookup_mem reg sym v hl
      simp only [tickEvents, List.mem_flatMap]
      refine ⟨(sym, v), hpm, ?_⟩
      simp only [List.mem_map]
      exact ⟨c, List.mem_filter.2 ⟨hv, hopen⟩, rfl⟩

/-- With distinct keys, the number of Adapter fetches a tick performs for a
symbol equals the number of that symbol's currently-open subscribers. -/
theorem countP_tickEvents (reg : Registry) (isOpen : Conn → Bool)
    (sym : String) (hnd : (reg.map Prod.fst).Nodup) :
    (tickEvents reg isOpen).countP (fun e => e.1 == sym) =
      ((getSubs reg sym).filter isOpen).length := by
  induction reg with
  | nil => simp [tickEvents, getSubs, List.lookup]
  | cons p rest ih =>
    have hnd0 := hnd
    rw [List.map_cons] at hnd0
    have hpair := List.nodup_cons.1 hnd0
    have hstep : tickEvents (p :: rest) isOpen =
        ((p.2.filter isOpen).map (fun c => (p.1, c))) ++ tickEvents rest isOpen := by
      simp [tickEvents]
    rw [hstep, List.countP_append]
    by_cases hk : p.1 = sym
    · have hhead : ((p.2.filter isOpen).map (fun c => (p.1, c))).countP
          (fun e => e.1 == sym) = (p.2.filter isOpen).length := by
        rw [List.countP_map]
        refine List.countP_eq_length.2 ?_
        intro c hc
        simpa using hk
      have hrest : (tickEvents rest isOpen).countP (fun e => e.1 == sym) = 0 := by
        rw [List.countP_eq_zero]
        intro e he
        have hkeys := fst_mem_keys_of_mem_tickEvents rest isOpen e he
        have hnot : sym ∉ rest.map Prod.fst := hk ▸ hpair.1
        simp only [beq_iff_eq]
        intro heq
        exact hnot (heq ▸ hkeys)
      have hgs : getSubs (p :: rest) sym = p.2 := by
        have hb : (sym == p.1) = true := by simpa using hk.symm
        simp [getSubs, List.lookup, hb]
      rw [hhead, hrest, hgs]
      omega
    · have hhead : ((p.2.filter isOpen).map (fun c => (p.1, c))).countP
          (fun e => e.1 == sym) = 0 := by
        rw [List.countP_map, List.countP_eq_zero]
        intro c hc
        simpa using hk
      have hgs : getSubs (p :: rest) sym = getSubs rest sym := by
        have hb : (sym == p.1) = false := by
          simpa using fun h => hk h.symm
        simp [getSubs, List.lookup, hb]
      rw [hhead, hgs, Nat.zero_add]
      exact ih hpair.2

/-- The `clients.size > 0` guard of fixed-index.ts does not change which
events a tick performs: both schedulers do the same work. -/
theorem fixedTickEvents_eq (reg : Registry) (isOpen : Conn → Bool) :
    fixedTickEvents reg isOpen = tickEvents reg isOpen := by
  induction reg with
  | nil => rfl
  | cons p rest ih =>
    simp only [fixedTickEvents, tickEvents, List.flatMap_cons] at ih ⊢
    rw [ih]
    cases hq : p.2 with
    | nil => simp
    | cons a l => simp

/-! ## Synthetic generator bounds -/

/-- The derived base price is at least 50. -/
theorem basePrice_lb (s : String) : 50 ≤ basePrice s := by
  simp [basePrice]

/-- The derived base price is below 1000. -/
theorem basePrice_ub (s : String) : basePrice s < 1000 := by
  have : (jsHash s).natAbs % 950 < 950 := Nat.mod_lt _ (by norm_num)
  simp only [basePrice]
  omega

/-- The mock price is the base price scaled by at most ±2 percent, hence
lies in [49, 1019) — but not necessarily in [50, 1000). -/
theorem mockPrice_bounds (sn : SineModel) (s : String) (t : Int) :
    49 ≤ mockPrice sn s t ∧ mockPrice sn s t < 1019 := by
  have hlb := basePrice_lb s
  have hub := basePrice_ub s
  have hb1 : (50 : ℚ) ≤ (basePrice s : ℚ) := by exact_mod_cast hlb
  have hb2 : (basePrice s : ℚ) ≤ 999 := by
    have : basePrice s ≤ 999 := by omega
    exact_mod_cast this
  have hs := abs_le.1 (sn.bound t)
  have hs1 : (-1 : ℚ) ≤ sn.val t := hs.1
  have hs2 : sn.val t ≤ 1 := hs.2
  constructor
  · simp only [mockPrice, fluctuation]
    nlinarith
  · simp only [mockPrice, fluctuation]
    nlinarith

/-- In exact (real-number) arithmetic the two mock `change` formulas,
`price - basePrice` (HTTP path) and `basePrice * fluctuation` (realtime
path), coincide; any divergence between the two code paths is a matter of
IEEE-754 rounding and serialization, not of the algebra. -/
theorem mock_change_formulas_agree_in_exact_arithmetic (sn : SineModel)
    (s : String) (t : Int) :
    (mockApiQuote sn s t).change = (mockQuote sn s t).change := by
  simp only [mockApiQuote, mockQuote, mockPrice]
  ring

/-! ## Claim theorems -/

/-- C1: for every symbol `s` and 5-minute time bucket `t`, the synthetic
quote generator is deterministic: the STOCK_UPDATE payload it sends does not
depend on the History Store state, and a repeated call with the same `s` and
`t` (from the state the first call produced) sends the identical payload —
in particular identical price, change and changePercent.  (The wall-clock
timestamp field is excluded from the embedded payload.) -/
theorem mockData_deterministic_per_symbol_bucket (sn : SineModel)
    (s : String) (t : Int) (h1 h2 : List Sample) :
    (sendMockStockData sn h1 s t).2 = (sendMockStockData sn h2 s t).2 ∧
      (sendMockStockData sn (sendMockStockData sn h1 s t).1 s t).2 =
        (sendMockStockData sn h1 s t).2 :=
  ⟨rfl, rfl⟩

/-- C2: on registry states satisfying the code's invariants (distinct keys,
duplicate-free sets, no empty entries), processing SUBSCRIBE_STOCK for the
same (symbol, connection) pair twice yields the same registry as processing
it once and leaves exactly one entry for that connection in the symbol's
subscriber set; and processing UNSUBSCRIBE_STOCK for a connection that is
not in the symbol's subscriber set leaves the registry unchanged. -/
theorem subscribe_idempotent_and_unsubscribe_nonmember_noop
    (reg : Registry) (ws ws2 : Conn) (s s2 : String)
    (hWF : WFReg reg) (hNE : NoEmptyEntries reg)
    (hnm : ws2 ∉ getSubs reg (jsToUpper s2)) :
    (handleMessage (handleMessage reg ws
        (InMsg.json (some "SUBSCRIBE_STOCK") (some s))).registry ws
        (InMsg.json (some "SUBSCRIBE_STOCK") (some s))).registry =
      (handleMessage reg ws
        (InMsg.json (some "SUBSCRIBE_STOCK") (some s))).registry ∧
    (getSubs (handleMessage (handleMessage reg ws
        (InMsg.json (some "SUBSCRIBE_STOCK") (some s))).registry ws
        (InMsg.json (some "SUBSCRIBE_STOCK") (some s))).registry
        (jsToUpper s)).count ws = 1 ∧
    (handleMessage reg ws2
        (InMsg.json (some "UNSUBSCRIBE_STOCK") (some s2))).registry = reg := by
  have hmsg : ∀ (r : Registry) (c : Conn),
      (handleMessage r c (InMsg.json (some "SUBSCRIBE_STOCK") (some s))).registry =
        subscribe r (jsToUpper s) c := by
    intro r c
    simp [handleMessage]
  have humsg :
      (handleMessage reg ws2
        (InMsg.json (some "UNSUBSCRIBE_STOCK") (some s2))).registry =
        unsubscribe reg (jsToUpper s2) ws2 := by
    simp [handleMessage]
  refine ⟨?_, ?_, ?_⟩
  · rw [hmsg, hmsg, subscribe_twice]
  · rw [hmsg, hmsg, subscribe_twice, getSubs_subscribe_self]
    exact count_setAdd ws _ (getSubs_nodup reg (jsToUpper s) hWF)
  · rw [humsg]
    exact unsubscribe_nonmember reg (jsToUpper s2) ws2 hWF hNE hnm

/-- Witness for C2 at a concrete registry. -/
theorem subscribe_idempotent_witness :
    WFReg [("MSFT", [1])] ∧ NoEmptyEntries [("MSFT", [1])] ∧
      (3 : Conn) ∉ getSubs [("MSFT", [1])] (jsToUpper "msft") ∧
      ((handleMessage (handleMessage [("MSFT", [1])] 2
          (InMsg.json (some "SUBSCRIBE_STOCK") (some "msft"))).registry 2
          (InMsg.json (some "SUBSCRIBE_STOCK") (some "msft"))).registry =
        (handleMessage [("MSFT", [1])] 2
          (InMsg.json (some "SUBSCRIBE_STOCK") (some "msft"))).registry ∧
      (getSubs (handleMessage (handleMessage [("MSFT", [1])] 2
          (InMsg.json (some "SUBSCRIBE_STOCK") (some "msft"))).registry 2
          (InMsg.json (some "SUBSCRIBE_STOCK") (some "msft"))).registry
          (jsToUpper "msft")).count 2 = 1 ∧
      (handleMessage [("MSFT", [1])] 3
          (InMsg.json (some "UNSUBSCRIBE_STOCK") (some "msft"))).registry =
        [("MSFT", [1])]) :=
  ⟨by decide, by decide, by decide,
    subscribe_idempotent_and_unsubscribe_nonmember_noop
      [("MSFT", [1])] 2 3 "msft" "msft" (by decide) (by decide) (by decide)⟩

/-- C3: processing a connection's close event removes it from the
subscriber set of every symbol — in both index.ts (which also reaps
now-empty entries) and fixed-index.ts (which does not): afterwards no
symbol's subscriber set contains the connection. -/
theorem close_removes_connection_from_all_symbols
    (reg : Registry) (ws : Conn) (sym : String) :
    ws ∉ getSubs (closeConn reg ws) sym ∧
      ws ∉ getSubs (fixedCloseConn reg ws) sym := by
  constructor
  · refine getSubs_pred (P := fun l => ws ∉ l) _ _ (List.not_mem_nil ws) ?_
    intro p hp
    simp only [closeConn, List.mem_filter, List.mem_map] at hp
    obtain ⟨⟨q, hq, rfl⟩, -⟩ := hp
    simp [setDel, List.mem_filter]
  · refine getSubs_pred (P := fun l => ws ∉ l) _ _ (List.not_mem_nil ws) ?_
    intro p hp
    simp only [fixedCloseConn, List.mem_map] at hp
    obtain ⟨q, hq, rfl⟩ := hp
    simp [setDel, List.mem_filter]

/-- C4 counterexample: with symbol "A" having the two open subscribers 1
and 2, one scheduler tick performs two Adapter fetch-and-push events for
"A" — not the single per-symbol quote request the claim states.  The code
calls `sendStockData(symbol, client)` separately for each open subscriber. -/
theorem tick_two_requests_for_two_subscribers_cex :
    (tickEvents [("A", [1, 2])] (fun _ => true)).countP
        (fun e => e.1 == "A") = 2 ∧
      ¬ (tickEvents [("A", [1, 2])] (fun _ => true)).countP
        (fun e => e.1 == "A") = 1 ∧
      getSubs [("A", [1, 2])] "A" ≠ [] :=
  ⟨by decide, by decide, by decide⟩

/-- C4 amended: on each tick, every symbol receives one Adapter quote
request per currently-open subscriber (not one per symbol), and that quote
is pushed to that subscriber; a subscriber that is closed at push time is
skipped and receives nothing; the tick does not modify the registry, so the
skipped entry remains (`tickEvents` is read-only in the registry).  The
fixed-index.ts tick performs exactly the same events. -/
theorem tick_requests_and_pushes_per_open_subscriber
    (reg : Registry) (isOpen : Conn → Bool) (sym : String) (c : Conn)
    (hWF : WFReg reg) :
    (tickEvents reg isOpen).countP (fun e => e.1 == sym) =
      ((getSubs reg sym).filter isOpen).length ∧
    ((sym, c) ∈ tickEvents reg isOpen ↔
      c ∈ getSubs reg sym ∧ isOpen c = true) ∧
    (isOpen c = false → (sym, c) ∉ tickEvents reg isOpen) ∧
    fixedTickEvents reg isOpen = tickEvents reg isOpen := by
  refine ⟨countP_tickEvents reg isOpen sym hWF.1,
    mem_tickEvents_iff reg isOpen sym c hWF.1, ?_,
    fixedTickEvents_eq reg isOpen⟩
  intro hclosed hmem
  have := (mem_tickEvents_iff reg isOpen sym c hWF.1).1 hmem
  rw [hclosed] at this
  exact absurd this.2 (by simp)

/-- Witness for C4's amended theorem at a concrete registry with one open
and one closed subscriber. -/
theorem tick_requests_witness :
    WFReg [("A", [1, 2]), ("B", [2])] ∧
      ((tickEvents [("A", [1, 2]), ("B", [2])] (fun c => c == 1)).countP
          (fun e => e.1 == "A") =
        ((getSubs [("A", [1, 2]), ("B", [2])] "A").filter
          (fun c => c == 1)).length ∧
      ((("A", 2) : String × Conn) ∈
          tickEvents [("A", [1, 2]), ("B", [2])] (fun c => c == 1) ↔
        2 ∈ getSubs [("A", [1, 2]), ("B", [2])] "A" ∧ (2 == 1) = true) ∧
      ((fun c => c == 1) (2 : Conn) = false →
        (("A", 2) : String × Conn) ∉
          tickEvents [("A", [1, 2]), ("B", [2])] (fun c => c == 1)) ∧
      fixedTickEvents [("A", [1, 2]), ("B", [2])] (fun c => c == 1) =
        tickEvents [("A", [1, 2]), ("B", [2])] (fun c => c == 1)) :=
  ⟨by decide,
    tick_requests_and_pushes_per_open_subscriber
      [("A", [1, 2]), ("B", [2])] (fun c => c == 1) "A" 2 (by decide)⟩

/-- C5 counterexample: resolving a quote on the HTTP path (here: the mock
branch, for "AAPL" with no API key) appends nothing to the History Store —
`sendMockApiResponse` has no `storeHistoricalData` call — contradicting the
claim that every successful resolution on the HTTP path appends one sample. -/
theorem http_mock_response_skips_history_cex :
    (httpStocksRoute sineZero false FetchResult.throwErr [] "AAPL" 0).1 = [] ∧
      ¬ (httpStocksRoute sineZero false FetchResult.throwErr [] "AAPL" 0).1.length =
        ([] : List Sample).length + 1 :=
  ⟨rfl, by simp [httpStocksRoute, sendMockApiResponse]⟩

/-- C5 amended: on the realtime path every successful quote resolution —
live or synthetic, for any key configuration and provider outcome — appends
exactly one sample to the History Store; the HTTP quote route never appends
to it (neither its mock branch nor its live pass-through branch). -/
theorem realtime_appends_history_http_does_not (sn : SineModel)
    (hasKey : Bool) (fr : FetchResult) (hist : List Sample) (s : String)
    (t : Int) :
    (∃ smp : Sample, (sendStockData sn hasKey fr hist s t).1 = hist ++ [smp]) ∧
    (httpStocksRoute sn hasKey fr hist s t).1 = hist := by
  constructor
  · cases hasKey with
    | false => exact ⟨mockQuote sn s t, rfl⟩
    | true =>
      cases fr with
      | throwErr => exact ⟨mockQuote sn s t, rfl⟩
      | resp hasNote hasInfo gq =>
        cases gq with
        | none => exact ⟨mockQuote sn s t, by simp [sendStockData, sendMockStockData]⟩
        | some q =>
          cases hasNote with
          | true => exact ⟨mockQuote sn s t, by simp [sendStockData, sendMockStockData]⟩
          | false =>
            cases hasInfo with
            | true => exact ⟨mockQuote sn s t, by simp [sendStockData, sendMockStockData]⟩
            | false => exact ⟨⟨s, q.price, q.change, q.changePercent⟩,
                by simp [sendStockData]⟩
  · cases hasKey with
    | false => rfl
    | true =>
      cases fr with
      | throwErr => rfl
      | resp hasNote hasInfo gq =>
        cases gq with
        | none => simp [httpStocksRoute, sendMockApiResponse]
        | some q =>
          cases hasNote with
          | true => simp [httpStocksRoute, sendMockApiResponse]
          | false =>
            cases hasInfo with
            | true => simp [httpStocksRoute, sendMockApiResponse]
            | false => simp [httpStocksRoute, sendMockApiResponse]

/-- C6 counterexample: the symbol "YZ" hashes to base price 999, and at a
time bucket where `Math.sin` is about `0.8414709848` (the value of `sin 1`;
about half of all bucket indices give a sine above the `0.0505` needed
here) the mock HTTP quote's price is `999 * (1 + 0.8414709848 * 0.02)`,
about `1015.81` — not in `[50, 1000)` as the claim states. -/
theorem mock_api_price_can_reach_1000_cex :
    (sendMockApiResponse sineNearOne [] "YZ" 1).2 =
      RouteResp.mock (mockApiQuote sineNearOne "YZ" 1) ∧
    (mockApiQuote sineNearOne "YZ" 1).symbol = "YZ" ∧
    1000 ≤ (mockApiQuote sineNearOne "YZ" 1).price ∧
    ¬ (mockApiQuote sineNearOne "YZ" 1).price < 1000 := by
  have hb : basePrice "YZ" = 999 := by decide
  have hp : (mockApiQuote sineNearOne "YZ" 1).price =
      999 * (1 + 8414709848 / 10 ^ 10 * (2 / 100)) := by
    simp [mockApiQuote, mockPrice, fluctuation, sineNearOne, constSine, hb]
  refine ⟨rfl, rfl, ?_, ?_⟩
  · rw [hp]; norm_num
  · rw [hp]; norm_num

/-- C6 amended: with no provider API key, the HTTP quote route answers with
the mock `Global Quote`, whose `01. symbol` equals the requested symbol and
whose base price lies in [50, 1000); the served price is the base price
scaled by at most ±2 percent, hence lies in [49, 1019) — but not
necessarily in [50, 1000). -/
theorem mock_api_symbol_and_price_bounds (sn : SineModel) (fr : FetchResult)
    (hist : List Sample) (s : String) (t : Int) :
    (httpStocksRoute sn false fr hist s t).2 =
      RouteResp.mock (mockApiQuote sn s t) ∧
    (mockApiQuote sn s t).symbol = s ∧
    50 ≤ basePrice s ∧ basePrice s < 1000 ∧
    49 ≤ (mockApiQuote sn s t).price ∧ (mockApiQuote sn s t).price < 1019 := by
  have hb := mockPrice_bounds sn s t
  exact ⟨rfl, rfl, basePrice_lb s, basePrice_ub s, hb.1, hb.2⟩

/-- C8: any inbound frame that is not a well-formed subscribe or
unsubscribe request — unparseable JSON, an unrecognized `type`, or a
missing `symbol` — leaves the subscription registry unchanged and does not
close the connection (the handler's try/catch absorbs the error). -/
theorem malformed_message_leaves_registry_and_connection
    (reg : Registry) (ws : Conn) (m : InMsg) (h : Malformed m) :
    (handleMessage reg ws m).registry = reg ∧
      (handleMessage reg ws m).closedByServer = false := by
  cases m with
  | notJson => exact ⟨rfl, rfl⟩
  | json ty symb =>
    rcases h with ⟨h1, h2⟩ | rfl
    · simp [handleMessage, h1, h2]
    · simp only [handleMessage]
      constructor <;> split <;> simp

/-- Witness for C8 on a frame with an unrecognized type and one with a
missing symbol field. -/
theorem malformed_message_witness :
    Malformed (InMsg.json (some "PING") (some "X")) ∧
      Malformed (InMsg.json (some "SUBSCRIBE_STOCK") none) ∧
      ((handleMessage [("A", [1])] 2 (InMsg.json (some "PING") (some "X"))).registry =
          [("A", [1])] ∧
        (handleMessage [("A", [1])] 2
          (InMsg.json (some "PING") (some "X"))).closedByServer = false) ∧
      ((handleMessage [("A", [1])] 2
          (InMsg.json (some "SUBSCRIBE_STOCK") none)).registry = [("A", [1])] ∧
        (handleMessage [("A", [1])] 2
          (InMsg.json (some "SUBSCRIBE_STOCK") none)).closedByServer = false) :=
  ⟨by decide, by decide,
    malformed_message_leaves_registry_and_connection [("A", [1])] 2
      (InMsg.json (some "PING") (some "X")) (by decide),
    malformed_message_leaves_registry_and_connection [("A", [1])] 2
      (InMsg.json (some "SUBSCRIBE_STOCK") none) (by decide)⟩

/-- C9: the storage layer's `usingFallback` flag is a one-way circuit
breaker.  Once set: every operation keeps it set (over any further trace of
operations), ignores the durable backend's outcome entirely, commits
nothing further to the durable backend, performs the in-memory effect, and
still reports success.  From the durable state, any operational failure
sets the flag.  The flag being clear after a step means it was clear
before — it is never reset while the process runs. -/
theorem storage_fallback_flag_monotone (st : StoreState) (op : StoreOp)
    (dbOk dbOk2 : Bool) (tr : List (StoreOp × Bool))
    (h : st.usingFallback = true) :
    (storeStep st op dbOk).1.usingFallback = true ∧
    storeStep st op dbOk = storeStep st op dbOk2 ∧
    (storeStep st op dbOk).1.db = st.db ∧
    (storeStep st op dbOk).1.mem = memApply st.mem op ∧
    (storeStep st op dbOk).2 = true ∧
    (runStore st tr).usingFallback = true ∧
    (storeStep { st with usingFallback := false } op false).1.usingFallback
      = true := by
  refine ⟨by simp [storeStep, h], by simp [storeStep, h], by simp [storeStep, h],
    by simp [storeStep, h], by simp [storeStep, h], ?_, by simp [storeStep]⟩
  induction tr generalizing st with
  | nil => simpa [runStore] using h
  | cons e rest ih =>
    obtain ⟨op', b⟩ := e
    simp only [runStore]
    exact ih _ (by simp [storeStep, h])

/-- Witness for C9 at a concrete fallback state and trace. -/
theorem storage_fallback_witness :
    ({ usingFallback := true, mem := ⟨[], []⟩, db := [] } : StoreState).usingFallback
        = true ∧
      ((storeStep { usingFallback := true, mem := ⟨[], []⟩, db := [] }
          (StoreOp.addWatch 1 "AAPL") true).1.usingFallback = true ∧
        storeStep { usingFallback := true, mem := ⟨[], []⟩, db := [] }
            (StoreOp.addWatch 1 "AAPL") true =
          storeStep { usingFallback := true, mem := ⟨[], []⟩, db := [] }
            (StoreOp.addWatch 1 "AAPL") false ∧
        (storeStep { usingFallback := true, mem := ⟨[], []⟩, db := [] }
          (StoreOp.addWatch 1 "AAPL") true).1.db = [] ∧
        (storeStep { usingFallback := true, mem := ⟨[], []⟩, db := [] }
            (StoreOp.addWatch 1 "AAPL") true).1.mem =
          memApply ⟨[], []⟩ (StoreOp.addWatch 1 "AAPL") ∧
        (storeStep { usingFallback := true, mem := ⟨[], []⟩, db := [] }
          (StoreOp.addWatch 1 "AAPL") true).2 = true ∧
        (runStore { usingFallback := true, mem := ⟨[], []⟩, db := [] }
          [(StoreOp.storeHist "A" 1 2 3, false)]).usingFallback = true ∧
        (storeStep { usingFallback := false, mem := ⟨[], []⟩, db := [] }
          (StoreOp.addWatch 1 "AAPL") false).1.usingFallback = true) :=
  ⟨rfl,
    storage_fallback_flag_monotone
      { usingFallback := true, mem := ⟨[], []⟩, db := [] }
      (StoreOp.addWatch 1 "AAPL") true false
      [(StoreOp.storeHist "A" 1 2 3, false)] rfl⟩

/-- C10: in index.ts, the invariant that every symbol key present in the
subscription map has a non-empty subscriber set is preserved by every
completed message event (well-formed or not) and holds after every close
event, for states satisfying the map/set representation invariant: so the
broadcast loop never iterates a symbol with zero subscribers. -/
theorem registry_entries_nonempty_invariant (reg : Registry) (ws : Conn)
    (m : InMsg) (hWF : WFReg reg) (hNE : NoEmptyEntries reg) :
    NoEmptyEntries (handleMessage reg ws m).registry ∧
      NoEmptyEntries (closeConn reg ws) := by
  refine ⟨?_, noEmpty_closeConn reg ws⟩
  cases m with
  | notJson => exact hNE
  | json ty symb =>
    by_cases h1 : ty = some "SUBSCRIBE_STOCK"
    · cases symb with
      | none => simpa [handleMessage, h1] using hNE
      | some s =>
        simpa [handleMessage, h1] using
          noEmpty_subscribe reg (jsToUpper s) ws hNE
    · by_cases h2 : ty = some "UNSUBSCRIBE_STOCK"
      · cases symb with
        | none => simpa [handleMessage, h1, h2] using hNE
        | some s =>
          simpa [handleMessage, h1, h2] using
            noEmpty_unsubscribe reg (jsToUpper s) ws hWF hNE
      · simpa [handleMessage, h1, h2] using hNE

/-- Witness for C10 on an unsubscribe that empties a symbol's set. -/
theorem registry_invariant_witness :
    WFReg [("MSFT", [1])] ∧ NoEmptyEntries [("MSFT", [1])] ∧
      (NoEmptyEntries (handleMessage [("MSFT", [1])] 1
          (InMsg.json (some "UNSUBSCRIBE_STOCK") (some "MSFT"))).registry ∧
        NoEmptyEntries (closeConn [("MSFT", [1])] 1)) :=
  ⟨by decide, by decide,
    registry_entries_nonempty_invariant [("MSFT", [1])] 1
      (InMsg.json (some "UNSUBSCRIBE_STOCK") (some "MSFT"))
      (by decide) (by decide)⟩
